import Mathlib

/-!
Shallow embedding of the cinemabot search-and-presentation core.

The data model and operations below are translated from `src/api.py`,
`src/inline_keyboard.py` and `src/main.py`:

* Python dicts coming from JSON become structures with `Option` fields;
  a `KeyError` on a missing required field becomes an `Option`-returning
  parser yielding `none`.
* Python strings are sequences of code points, so Python string
  operations (`endswith`, negative slicing, `str.title`) are modelled on
  `String.data`, the list of characters.
* JSON numbers carried through unchanged (rating scores) are modelled as
  integers: no claim depends on a non-integral score.
* The mutating keyboard `add` method becomes a function from the fresh
  keyboard state (empty row list) to the final row list, with the loop's
  local variables (`row`, `row_len`) as accumulator arguments.
* `logging.error` calls are modelled by a boolean component recording
  whether the diagnostic branch was taken; the `KeyError` that the
  diagnostic loop itself can raise (its f-string reads
  `provider['clear_name']` for every directory entry) is the outer
  `Option`'s `none` in `provider_name`'s result.
-/

namespace Cinemabot

/-- Python `s.endswith(suffix)`: the suffix's characters end the string. -/
def pyEndswith (s suffix : String) : Bool :=
  suffix.data.isSuffixOf s.data

/-- Python `s[: -n]` for `n ≥ 0`: all characters but the last `n`
(the empty string when `n ≥ len(s)`). -/
def pySliceDropLast (s : String) (n : Nat) : String :=
  String.mk (s.data.take (s.data.length - n))

/-- One step of Python `str.title()`: the boolean says whether the previous
character was cased; a letter after a non-cased character is uppercased,
any other letter lowercased. -/
def pyTitleAux : Bool → List Char → List Char
  | _, [] => []
  | prevCased, c :: cs =>
    if c.isAlpha then
      (if prevCased then c.toLower else c.toUpper) :: pyTitleAux true cs
    else
      c :: pyTitleAux false cs

/-- Python `s.title()` (over the ASCII letters the repository uses). -/
def pyTitle (s : String) : String :=
  String.mk (pyTitleAux false s.data)

/-- One raw scoring entry of the catalog's payload (`src/api.py`,
`Rating.from_json` argument): both fields may be missing. -/
structure RatingJson where
  provider_type : Option String
  value : Option Int
deriving DecidableEq

/-- `src/api.py` `Rating`: a normalized (name, score) pair. -/
structure Rating where
  name : String
  score : Int
deriving DecidableEq

/-- `src/api.py` `Rating.from_json`: `None` when `provider_type` or `value`
is missing or the provider type does not end with `"score"`; otherwise the
name is the provider type with the last `len(":score")` characters cut off. -/
def Rating.fromJson (j : RatingJson) : Option Rating :=
  match j.provider_type, j.value with
  | some provider, some v =>
    if pyEndswith provider "score" then
      some { name := pySliceDropLast provider (":score".length), score := v }
    else
      none
  | _, _ => none

/-- `src/api.py` `Rating.__str__`: `f"{self.name.title()}: {self.score}"`. -/
def Rating.str (r : Rating) : String :=
  pyTitle r.name ++ ": " ++ toString r.score

/-- The nested `urls` object of a raw offer entry. -/
structure UrlsJson where
  standard_web : Option String
deriving DecidableEq

/-- One raw offer entry (`src/api.py`, `CinemaLink.__init__` argument). -/
structure OfferJson where
  provider_id : Option Int
  urls : Option UrlsJson
deriving DecidableEq

/-- `src/api.py` `CinemaLink`: a (provider id, url) pair. -/
structure CinemaLink where
  provider_id : Int
  url : String
deriving DecidableEq

/-- `src/api.py` `CinemaLink.__init__`: reads `provider_id` and
`urls.standard_web`; a missing key raises `KeyError`, modelled as `none`. -/
def CinemaLink.fromJson (j : OfferJson) : Option CinemaLink :=
  match j.provider_id, j.urls with
  | some pid, some u =>
    match u.standard_web with
    | some url => some { provider_id := pid, url := url }
    | none => none
  | _, _ => none

/-- A raw film record (`src/api.py`, argument of `BaseMovie.__init__` and
`Movie.__init__`): every field may be missing. -/
structure FilmJson where
  id : Option Int
  title : Option String
  object_type : Option String
  original_release_year : Option Int
  scoring : Option (List RatingJson)
  short_description : Option String
  poster : Option String
  offers : Option (List OfferJson)
deriving DecidableEq

/-- `src/api.py` `BaseMovie`: identity record of a catalog hit, with the
ratings parsed from the optional `scoring` list. -/
structure BaseMovie where
  id : Int
  title : String
  object_type : String
  original_release_year : Option Int
  ratings : List Rating
deriving DecidableEq

/-- `src/api.py` `BaseMovie.__init__`: `id`, `title`, `object_type` are
required (a missing one raises `KeyError` — `none` here);
`original_release_year` defaults to `None`; ratings are the entries of
`scoring` that `Rating.from_json` accepts, in order. -/
def BaseMovie.fromJson (j : FilmJson) : Option BaseMovie :=
  match j.id, j.title, j.object_type with
  | some i, some t, some o =>
    some { id := i, title := t, object_type := o,
           original_release_year := j.original_release_year,
           ratings :=
             match j.scoring with
             | some l => l.filterMap Rating.fromJson
             | none => [] }
  | _, _, _ => none

/-- Python dict assignment `offers[provider_id] = cinema_link` on an
insertion-ordered dict, modelled as an association list: an existing key
keeps its position and takes the new value, a new key is appended. -/
def dictInsert (m : List (Int × CinemaLink)) (k : Int) (v : CinemaLink) :
    List (Int × CinemaLink) :=
  if m.any (fun p => p.1 == k) then
    m.map (fun p => if p.1 == k then (k, v) else p)
  else
    m ++ [(k, v)]

/-- The offers loop of `src/api.py` `Movie.__init__`: build the dict keyed
by provider id (entries whose construction raises `KeyError` are skipped),
then take `list(offers.values())`. -/
def offersFromJson (l : List OfferJson) : List CinemaLink :=
  (l.foldl
    (fun m offer_json =>
      match CinemaLink.fromJson offer_json with
      | some cinema_link => dictInsert m cinema_link.provider_id cinema_link
      | none => m)
    []).map Prod.snd

/-- `src/api.py` `Movie`: the `BaseMovie` fields plus description, poster
template and deduplicated offers. -/
structure Movie where
  id : Int
  title : String
  object_type : String
  original_release_year : Option Int
  ratings : List Rating
  short_description : String
  poster : String
  offers : List CinemaLink
deriving DecidableEq

/-- `src/api.py` `Movie.__init__`: the `BaseMovie` parse plus required
`short_description` and `poster`; the optional `offers` list is
deduplicated through the dict. -/
def Movie.fromJson (j : FilmJson) : Option Movie :=
  match BaseMovie.fromJson j with
  | none => none
  | some b =>
    match j.short_description, j.poster with
    | some sd, some p =>
      some { id := b.id, title := b.title, object_type := b.object_type,
             original_release_year := b.original_release_year,
             ratings := b.ratings,
             short_description := sd, poster := p,
             offers :=
               match j.offers with
               | some l => offersFromJson l
               | none => [] }
    | _, _ => none

/-- `src/api.py` `format_base_movie`. -/
def format_base_movie (base_movie : BaseMovie) : String :=
  match base_movie.original_release_year with
  | some y => "<b>" ++ base_movie.title ++ "</b> (" ++ toString y ++ ")"
  | none => "<b>" ++ base_movie.title ++ "</b>"

/-- `src/api.py` `format_description`: `"\n".join` of the title line, the
comma-joined ratings, an empty line, the description and an empty line. -/
def format_description (movie : Movie) : String :=
  let name_line :=
    match movie.original_release_year with
    | some y => movie.title ++ " (" ++ toString y ++ ")"
    | none => movie.title
  String.intercalate "\n"
    ["<b>" ++ name_line ++ "</b>",
     String.intercalate ", " (movie.ratings.map Rating.str),
     "",
     movie.short_description,
     ""]

/-- One entry of the provider directory: the raw provider JSON, of which
only the optional `clear_name` field is ever read. -/
structure Provider where
  clear_name : Option String
deriving DecidableEq

/-- The diagnostic loop of `provider_name`'s unknown-id branch
(`src/api.py:152-153`): each iteration's f-string reads
`provider['clear_name']`, so an entry without that key raises `KeyError`
(`none`); when every entry has it, the loop logs them all and completes
(`some ()`). -/
def diagnosticLoop : List (Int × Provider) → Option Unit
  | [] => some ()
  | (_, p) :: rest =>
    match p.clear_name with
    | some _ => diagnosticLoop rest
    | none => none

/-- `src/api.py` `JustWatchSearchMovieAPI.provider_name`: an unknown id
runs the diagnostic loop over the whole directory — which itself raises
`KeyError` (outer `none`) when some entry lacks `clear_name` — and then
yields `None`; a known entry without `clear_name` yields `None` without
logging; otherwise the display name. A returning call is
`some (name?, logged)`, the boolean recording whether the diagnostic was
logged. -/
def provider_name (providers : List (Int × Provider)) (provider_id : Int) :
    Option (Option String × Bool) :=
  match providers.lookup provider_id with
  | none =>
    match diagnosticLoop providers with
    | some _ => some (none, true)
    | none => none
  | some p =>
    match p.clear_name with
    | none => some (none, false)
    | some n => some (some n, false)

/-- A directory entry without the `clear_name` field. -/
def namelessProvider : Provider := { clear_name := none }

/-- A directory whose single entry (id 5) lacks `clear_name`. -/
def dirNameless : List (Int × Provider) := [(5, namelessProvider)]

/-- `src/api.py` `SearchMovieAPI.search_for_item`: iterate the base-search
candidates in order; return the detail of a candidate when `movie_details`
succeeds, skip it when the fetch raises `KeyError` (`none` under the
stub), and return `None` when the loop runs out. -/
def search_for_item (movie_details : Int → String → Option Movie) :
    List BaseMovie → Option Movie
  | [] => none
  | base_result :: rest =>
    match movie_details base_result.id base_result.object_type with
    | some m => some m
    | none => search_for_item movie_details rest

/-- An inline keyboard button: only its label length matters to the
row-packing loop, but the label is kept whole. -/
structure Button where
  text : String
deriving DecidableEq

/-- The loop of `src/inline_keyboard.py`
`WrappedInlineKeyboardMarkup.add`: `keyboard` is `self.inline_keyboard` so
far, `row`/`row_len` the loop's locals, and the remaining buttons drive the
recursion; the final row is appended after the loop. -/
def addAux (symbols_limit count_limit : Nat) (keyboard : List (List Button))
    (row : List Button) (row_len : Nat) : List Button → List (List Button)
  | [] => keyboard ++ [row]
  | button :: rest =>
    if row_len + button.text.length ≤ symbols_limit ∧
        row.length + 1 ≤ count_limit then
      addAux symbols_limit count_limit keyboard (row ++ [button])
        (row_len + button.text.length) rest
    else
      addAux symbols_limit count_limit (keyboard ++ [row]) [button]
        button.text.length rest

/-- `src/inline_keyboard.py` `WrappedInlineKeyboardMarkup.add` called once
on a fresh keyboard (`inline_keyboard` empty): the resulting row list. -/
def add (symbols_limit count_limit : Nat) (args : List Button) :
    List (List Button) :=
  addAux symbols_limit count_limit [] [] 0 args

/-- Summed label length of a row (the quantity `row_len` tracks). -/
def rowLen (row : List Button) : Nat :=
  (row.map (fun b => b.text.length)).sum

def btnAB : Button := { text := "ab" }

def btnCD : Button := { text := "cd" }

def btnEF : Button := { text := "ef" }

def btnHello : Button := { text := "hello" }

/-- Raw detail record of the stub's first candidate: `short_description` is
missing, so `Movie` construction raises `KeyError` (parses to `none`). -/
def filmJsonFirst : FilmJson :=
  { id := some 1, title := some "First", object_type := some "movie",
    original_release_year := none, scoring := none,
    short_description := none, poster := some "/p1", offers := none }

/-- Raw detail record of the stub's second candidate: complete. -/
def filmJsonSecond : FilmJson :=
  { id := some 2, title := some "Second", object_type := some "movie",
    original_release_year := some 2001, scoring := none,
    short_description := some "desc", poster := some "/p2", offers := none }

/-- The movie the second candidate's detail fetch yields. -/
def movieSecond : Movie :=
  { id := 2, title := "Second", object_type := "movie",
    original_release_year := some 2001, ratings := [],
    short_description := "desc", poster := "/p2", offers := [] }

/-- A stub `movie_details`: candidate 1's detail record is missing a
required field, candidate 2's is complete. -/
def stubDetails (movie_id : Int) (object_type : String) : Option Movie :=
  if movie_id == 1 then Movie.fromJson filmJsonFirst else Movie.fromJson filmJsonSecond

/-- Base-search candidate 1. -/
def candFirst : BaseMovie :=
  { id := 1, title := "First", object_type := "movie",
    original_release_year := none, ratings := [] }

/-- Base-search candidate 2. -/
def candSecond : BaseMovie :=
  { id := 2, title := "Second", object_type := "movie",
    original_release_year := some 2001, ratings := [] }

/-- The `release_year = 1999` example of the claim. -/
def bmExample : BaseMovie :=
  { id := 0, title := "Title", object_type := "movie",
    original_release_year := some 1999, ratings := [] }

/-- The detail block the spec describes, modelled from the spec's words:
title line (bold title, then the parenthesized year when present), blank
line, comma-joined rating summaries, blank line, short description,
trailing blank line. Defined only to compare against the code-derived
`format_description`. -/
def spec_format_detail_block (movie : Movie) : String :=
  "<b>" ++ movie.title ++ "</b>"
    ++ (match movie.original_release_year with
        | some y => " (" ++ toString y ++ ")"
        | none => "")
    ++ "\n" ++ "\n"
    ++ String.intercalate ", " (movie.ratings.map Rating.str)
    ++ "\n" ++ "\n" ++ movie.short_description ++ "\n"

/-- A concrete movie with one rating, no release year. -/
def movieDetailExample : Movie :=
  { id := 0, title := "T", object_type := "movie",
    original_release_year := none,
    ratings := [{ name := "imdb", score := 8 }],
    short_description := "d", poster := "/p", offers := [] }

/-- The distinct elements of a list, in first-occurrence order (spec-side
characterization of Python dict key order). -/
def firstKeys : List Int → List Int
  | [] => []
  | k :: ks => k :: firstKeys (ks.filter (fun x => !(x == k)))
termination_by l => l.length
decreasing_by
  simp only [List.length_cons]
  exact Nat.lt_succ_of_le (List.length_filter_le _ _)

/-- The dict-building fold of `Movie.__init__`, restricted to the offers
whose construction succeeds. -/
def dedupFold (links : List CinemaLink) : List (Int × CinemaLink) :=
  links.foldl (fun m cl => dictInsert m cl.provider_id cl) []

/-- The url of the last raw occurrence of a provider id (spec-side
characterization of value overwriting). -/
def lastUrlOf (links : List CinemaLink) (pid : Int) : Option String :=
  ((links.filter (fun cl => cl.provider_id == pid)).getLast?).map CinemaLink.url

theorem rowLen_append_single (row : List Button) (b : Button) :
    rowLen (row ++ [b]) = rowLen row + b.text.length := by
  simp [rowLen]

theorem rowLen_single (b : Button) : rowLen [b] = b.text.length := by
  simp [rowLen]

theorem addAux_flatten (sl cl : Nat) :
    ∀ (rest : List Button) (kb : List (List Button)) (row : List Button) (row_len : Nat),
      (addAux sl cl kb row row_len rest).flatten = kb.flatten ++ row ++ rest
  | [], kb, row, row_len => by simp [addAux]
  | b :: rest, kb, row, row_len => by
    simp only [addAux]
    split
    · rw [addAux_flatten sl cl rest]
      simp
    · rw [addAux_flatten sl cl rest]
      simp

theorem addAux_kb_prepend (sl cl : Nat) :
    ∀ (rest : List Button) (kb : List (List Button)) (row : List Button) (row_len : Nat),
      addAux sl cl kb row row_len rest = kb ++ addAux sl cl [] row row_len rest
  | [], kb, row, row_len => by simp [addAux]
  | b :: rest, kb, row, row_len => by
    simp only [addAux]
    split
    · exact addAux_kb_prepend sl cl rest kb (row ++ [b]) _
    · rw [addAux_kb_prepend sl cl rest (kb ++ [row]),
        addAux_kb_prepend sl cl rest ([] ++ [row])]
      simp

theorem addAux_limits (sl cl : Nat) (hc : 1 ≤ cl) :
    ∀ (rest : List Button) (kb : List (List Button)) (row : List Button),
      (∀ r ∈ kb, rowLen r ≤ sl ∨ r.length = 1) →
      (∀ r ∈ kb, r.length ≤ cl) →
      (rowLen row ≤ sl ∨ row.length = 1) →
      row.length ≤ cl →
      ∀ r ∈ addAux sl cl kb row (rowLen row) rest,
        (rowLen r ≤ sl ∨ r.length = 1) ∧ r.length ≤ cl
  | [], kb, row => by
    intro h1 h2 h3 h4 r hr
    simp only [addAux, List.mem_append, List.mem_singleton] at hr
    rcases hr with hr | rfl
    · exact ⟨h1 r hr, h2 r hr⟩
    · exact ⟨h3, h4⟩
  | b :: rest, kb, row => by
    intro h1 h2 h3 h4
    simp only [addAux]
    split
    · rename_i hcond
      rw [show rowLen row + b.text.length = rowLen (row ++ [b]) from
        (rowLen_append_single row b).symm]
      exact addAux_limits sl cl hc rest kb (row ++ [b]) h1 h2
        (Or.inl (by rw [rowLen_append_single]; exact hcond.1))
        (by simpa using hcond.2)
    · rename_i hcond
      rw [show b.text.length = rowLen [b] from (rowLen_single b).symm]
      refine addAux_limits sl cl hc rest (kb ++ [row]) [b] ?_ ?_ (Or.inr rfl) (by simpa using hc)
      · intro r hr
        rcases List.mem_append.mp hr with hr | hr
        · exact h1 r hr
        · rw [List.mem_singleton.mp hr]; exact h3
      · intro r hr
        rcases List.mem_append.mp hr with hr | hr
        · exact h2 r hr
        · rw [List.mem_singleton.mp hr]; exact h4

theorem addAux_oversized (sl cl : Nat) :
    ∀ (rest : List Button) (kb : List (List Button)) (row : List Button),
      (∀ r ∈ kb, ∀ b ∈ r, sl < b.text.length → r = [b]) →
      (∀ b ∈ row, sl < b.text.length → row = [b]) →
      ∀ r ∈ addAux sl cl kb row (rowLen row) rest, ∀ b ∈ r, sl < b.text.length → r = [b]
  | [], kb, row => by
    intro h1 h2 r hr
    simp only [addAux, List.mem_append, List.mem_singleton] at hr
    rcases hr with hr | rfl
    · exact h1 r hr
    · exact h2
  | b :: rest, kb, row => by
    intro h1 h2
    simp only [addAux]
    split
    · rename_i hcond
      rw [show rowLen row + b.text.length = rowLen (row ++ [b]) from
        (rowLen_append_single row b).symm]
      refine addAux_oversized sl cl rest kb (row ++ [b]) h1 ?_
      intro x hx hbig
      exfalso
      rcases List.mem_append.mp hx with hx | hx
      · have hrow := h2 x hx hbig
        rw [hrow, rowLen_single] at hcond
        omega
      · rw [List.mem_singleton.mp hx] at hbig
        omega
    · rename_i hcond
      rw [show b.text.length = rowLen [b] from (rowLen_single b).symm]
      refine addAux_oversized sl cl rest (kb ++ [row]) [b] ?_ ?_
      · intro r hr
        rcases List.mem_append.mp hr with hr | hr
        · exact h1 r hr
        · rw [List.mem_singleton.mp hr]; exact h2
      · intro x hx hbig
        rw [List.mem_singleton.mp hx]

theorem addAux_ne_nil (sl cl : Nat) :
    ∀ (rest : List Button) (kb : List (List Button)) (row : List Button) (row_len : Nat),
      (∀ r ∈ kb, r ≠ []) → row ≠ [] →
      ∀ r ∈ addAux sl cl kb row row_len rest, r ≠ []
  | [], kb, row, row_len => by
    intro h1 h2 r hr
    simp only [addAux, List.mem_append, List.mem_singleton] at hr
    rcases hr with hr | rfl
    · exact h1 r hr
    · exact h2
  | b :: rest, kb, row, row_len => by
    intro h1 h2
    simp only [addAux]
    split
    · exact addAux_ne_nil sl cl rest kb (row ++ [b]) _ h1 (by simp)
    · refine addAux_ne_nil sl cl rest (kb ++ [row]) [b] _ ?_ (by simp)
      intro r hr
      rcases List.mem_append.mp hr with hr | hr
      · exact h1 r hr
      · rw [List.mem_singleton.mp hr]; exact h2

/-- C2: on a fresh keyboard, a single `add` call packs the buttons into rows
where each row either keeps its summed label length within `symbols_limit`
or holds exactly one button, no row exceeds `count_limit` buttons, and the
rows concatenated in order are exactly the input sequence. -/
theorem add_row_budget (args : List Button) (symbols_limit count_limit : Nat)
    (_hs : 1 ≤ symbols_limit) (hc : 1 ≤ count_limit) :
    (∀ row ∈ add symbols_limit count_limit args,
      rowLen row ≤ symbols_limit ∨ row.length = 1)
    ∧ (∀ row ∈ add symbols_limit count_limit args, row.length ≤ count_limit)
    ∧ (add symbols_limit count_limit args).flatten = args := by
  have hmain := addAux_limits symbols_limit count_limit hc args [] []
    (by intro r hr; simp at hr) (by intro r hr; simp at hr)
    (Or.inl (by simp [rowLen])) (by simp)
  have hflat := addAux_flatten symbols_limit count_limit args [] [] 0
  refine ⟨?_, ?_, by simpa using hflat⟩
  · intro row hrow
    exact (hmain row (by simpa [add, rowLen] using hrow)).1
  · intro row hrow
    exact (hmain row (by simpa [add, rowLen] using hrow)).2

/-- C2 witness: the theorem applied to a concrete three-button input with
limits (4, 2). -/
theorem add_row_budget_witness :
    (add 4 2 [btnAB, btnCD, btnEF]).flatten = [btnAB, btnCD, btnEF] :=
  (add_row_budget [btnAB, btnCD, btnEF] 4 2 (by decide) (by decide)).2.2

/-- C8: a button whose label exceeds `symbols_limit` is still placed (the
rows concatenate to the input), and any row holding such a button is that
button alone. -/
theorem add_oversized_alone (args : List Button) (symbols_limit count_limit : Nat) :
    (add symbols_limit count_limit args).flatten = args
    ∧ ∀ row ∈ add symbols_limit count_limit args, ∀ b ∈ row,
        symbols_limit < b.text.length → row = [b] := by
  constructor
  · simpa using addAux_flatten symbols_limit count_limit args [] [] 0
  · intro row hrow
    exact addAux_oversized symbols_limit count_limit args [] []
      (by intro r hr; simp at hr) (by intro x hx; simp at hx) row
      (by simpa [add, rowLen] using hrow)

/-- C5 counterexample: the non-empty input `[btnHello]` with
`symbols_limit = 3` produces a leading empty row. -/
theorem add_empty_row_cex : add 3 3 [btnHello] = [[], [btnHello]] := by decide

/-- C5 amended: empty input yields exactly one empty row; for a non-empty
input (with `count_limit ≥ 1`) every row after the first is non-empty, and
the first row is empty exactly when the first button's label exceeds
`symbols_limit`. -/
theorem add_empty_row_iff (symbols_limit count_limit : Nat) (b : Button)
    (rest : List Button) (hc : 1 ≤ count_limit) :
    add symbols_limit count_limit [] = [[]]
    ∧ (∀ row ∈ (add symbols_limit count_limit (b :: rest)).tail, row ≠ [])
    ∧ ((add symbols_limit count_limit (b :: rest)).head? = some [] ↔
        symbols_limit < b.text.length) := by
  refine ⟨by simp [add, addAux], ?_⟩
  simp only [add, addAux, Nat.zero_add, List.nil_append]
  split
  · rename_i hcond
    have hne := addAux_ne_nil symbols_limit count_limit rest [] [b]
      b.text.length (by intro r hr; simp at hr) (by simp)
    constructor
    · intro row hrow
      exact hne row (List.mem_of_mem_tail hrow)
    · constructor
      · intro hhead
        rcases hres : addAux symbols_limit count_limit [] [b] b.text.length rest with
          _ | ⟨r, rs⟩
        · rw [hres] at hhead; simp at hhead
        · rw [hres] at hhead
          simp at hhead
          exact absurd (hhead ▸ (hne r (by rw [hres]; exact List.mem_cons_self r rs)))
            (by simp)
      · intro hbig
        exact absurd hcond.1 (by omega)
  · rename_i hcond
    have hbig : symbols_limit < b.text.length := by
      rcases Nat.lt_or_ge symbols_limit b.text.length with h | h
      · exact h
      · exact absurd ⟨h, hc⟩ hcond
    rw [addAux_kb_prepend symbols_limit count_limit rest [[]]]
    have hne := addAux_ne_nil symbols_limit count_limit rest [] [b]
      b.text.length (by intro r hr; simp at hr) (by simp)
    constructor
    · intro row hrow
      simp only [List.nil_append, List.singleton_append, List.tail_cons] at hrow
      exact hne row hrow
    · simp [hbig]

/-- C5 witness: the amended theorem applied at concrete input. -/
theorem add_empty_row_iff_witness : add 3 3 [] = [[]] :=
  (add_empty_row_iff 3 3 btnHello [] (by decide)).1

/-- C1 counterexample: the first candidate's detail fetch fails with a
missing required field, yet `search_for_item` returns the second
candidate's movie instead of an absent result. -/
theorem search_for_item_cex :
    Movie.fromJson filmJsonFirst = none
    ∧ search_for_item stubDetails [candFirst, candSecond] = some movieSecond := by
  decide

/-- C1 amended: when a prefix of candidates all fail their detail fetch
with `KeyError`, `search_for_item` keeps going and returns the first
successful detail; it returns an absent result only when every candidate
fails (in particular on the all-failing prefix alone). -/
theorem search_for_item_first_success
    (movie_details : Int → String → Option Movie)
    (pre : List BaseMovie) (c : BaseMovie) (post : List BaseMovie) (m : Movie)
    (hpre : ∀ b ∈ pre, movie_details b.id b.object_type = none)
    (hm : movie_details c.id c.object_type = some m) :
    search_for_item movie_details (pre ++ c :: post) = some m
    ∧ search_for_item movie_details pre = none := by
  induction pre with
  | nil =>
    constructor
    · simp only [List.nil_append, search_for_item, hm]
    · rfl
  | cons b pre ih =>
    have hb : movie_details b.id b.object_type = none := hpre b (List.mem_cons_self b pre)
    have ih' := ih (fun x hx => hpre x (List.mem_cons_of_mem b hx))
    constructor
    · simp only [List.cons_append, search_for_item, hb]
      exact ih'.1
    · simp only [search_for_item, hb]
      exact ih'.2

/-- C1 witness: the amended theorem applied to the concrete stub. -/
theorem search_for_item_first_success_witness :
    search_for_item stubDetails ([candFirst] ++ candSecond :: []) = some movieSecond
    ∧ search_for_item stubDetails [candFirst] = none :=
  search_for_item_first_success stubDetails [candFirst] candSecond [] movieSecond
    (by decide) (by decide)

/-- C4 counterexample: `"xscore"` does not end with `":score"`, yet a
Rating is produced (with the last six characters cut off, leaving `""`). -/
theorem rating_fromJson_cex :
    pyEndswith "xscore" ":score" = false
    ∧ Rating.fromJson { provider_type := some "xscore", value := some 7 } =
        some { name := "", score := 7 } := by
  decide

/-- C4 amended: a Rating is produced iff both fields are present and the
provider type ends with `"score"` (no colon required); the name is the
provider type with the last `len(":score")` characters cut off, which for
a provider type that does end with `":score"` is exactly that suffix
stripped. Everything else is silently dropped (`none`), never an error. -/
theorem rating_fromJson_iff (j : RatingJson) (r : Rating) :
    (Rating.fromJson j = some r ↔
      ∃ p v, j.provider_type = some p ∧ j.value = some v ∧
        pyEndswith p "score" = true ∧
        r = { name := pySliceDropLast p (":score".length), score := v })
    ∧ ∀ p : String, pyEndswith p ":score" = true →
        pySliceDropLast p (":score".length) ++ ":score" = p := by
  constructor
  · obtain ⟨pt, v⟩ := j
    cases pt with
    | none => simp [Rating.fromJson]
    | some p =>
      cases v with
      | none => simp [Rating.fromJson]
      | some x =>
        simp only [Rating.fromJson, Option.some.injEq]
        split
        · rename_i hends
          constructor
          · intro h
            obtain rfl := Option.some_injective _ h
            exact ⟨p, x, rfl, rfl, hends, rfl⟩
          · rintro ⟨p', v', rfl, rfl, -, rfl⟩
            rfl
        · rename_i hends
          constructor
          · intro h; exact absurd h (by simp)
          · rintro ⟨p', v', rfl, rfl, hends', rfl⟩
            exact absurd hends' (by simpa using hends)
  · intro p hp
    have hsuf : (":score".data) <:+ p.data := by
      simpa [pyEndswith] using hp
    obtain ⟨t, ht⟩ := hsuf
    cases p with
    | mk data =>
      simp only at ht
      subst ht
      show String.mk _ ++ _ = _
      rw [show (String.mk (t ++ ":score".data)).data = t ++ ":score".data from rfl]
      have hlen : (t ++ ":score".data).length - ":score".length = t.length := by
        simp [List.length_append]
        rfl
      rw [hlen, List.take_left]
      rfl

/-- C7 counterexample: provider id 5 is in the directory, but its entry
has no `clear_name`, so `provider_name` yields an absent value (and logs
nothing) even though the id is known. -/
theorem lookup_mem (l : List (Int × Provider)) (k : Int) (p : Provider)
    (h : l.lookup k = some p) : (k, p) ∈ l := by
  induction l with
  | nil => simp [List.lookup] at h
  | cons e rest ih =>
    obtain ⟨a, b⟩ := e
    by_cases hak : a = k
    · subst hak
      simp only [List.lookup, beq_self_eq_true] at h
      obtain rfl := Option.some_injective _ h
      exact List.mem_cons_self _ _
    · have hne : (k == a) = false := beq_eq_false_iff_ne.mpr (fun h => hak h.symm)
      simp only [List.lookup, hne] at h
      exact List.mem_cons_of_mem _ (ih h)

theorem diagnosticLoop_all_named (l : List (Int × Provider))
    (h : ∀ p ∈ l, (p.2).clear_name.isSome = true) : diagnosticLoop l = some () := by
  induction l with
  | nil => rfl
  | cons e rest ih =>
    obtain ⟨k, p⟩ := e
    have hp := h (k, p) (List.mem_cons_self _ _)
    cases hcn : p.clear_name with
    | none =>
      rw [hcn] at hp
      simp at hp
    | some n =>
      simp only [diagnosticLoop, hcn]
      exact ih (fun q hq => h q (List.mem_cons_of_mem _ hq))

theorem diagnosticLoop_nameless (l : List (Int × Provider))
    (h : ∃ p ∈ l, (p.2).clear_name = none) : diagnosticLoop l = none := by
  induction l with
  | nil => simp at h
  | cons e rest ih =>
    obtain ⟨k, p⟩ := e
    obtain ⟨q, hq, hqn⟩ := h
    rcases List.mem_cons.mp hq with rfl | hq'
    · simp only at hqn
      simp only [diagnosticLoop, hqn]
    · cases hcn : p.clear_name with
      | none => simp [diagnosticLoop, hcn]
      | some n =>
        simp only [diagnosticLoop, hcn]
        exact ih ⟨q, hq', hqn⟩

/-- C7 counterexample: in the directory `[(5, namelessProvider)]`, id 5 is
known but `provider_name` yields an absent value without logging, and the
unknown id 6 makes the diagnostic loop raise `KeyError` (outer `none`)
rather than return an absent value — so `provider_name` can raise. -/
theorem provider_name_cex :
    (List.lookup (5 : Int) dirNameless).isSome = true
    ∧ provider_name dirNameless 5 = some (none, false)
    ∧ provider_name dirNameless 6 = none := by
  decide

/-- C7 amended: a known id whose entry has a display name yields that
name; a known id whose entry lacks the display-name field yields an
absent name with no diagnostic; an unknown id yields an absent name with
the diagnostic logged only when every directory entry has `clear_name` —
when some entry lacks it, the diagnostic loop itself raises `KeyError`,
so `provider_name` does not return at all. -/
theorem provider_name_cases (providers : List (Int × Provider)) (provider_id : Int) :
    (providers.lookup provider_id = none →
      ((∀ p ∈ providers, (p.2).clear_name.isSome = true) →
        provider_name providers provider_id = some (none, true))
      ∧ ((∃ p ∈ providers, (p.2).clear_name = none) →
        provider_name providers provider_id = none))
    ∧ (∀ p, providers.lookup provider_id = some p → p.clear_name = none →
      provider_name providers provider_id = some (none, false))
    ∧ (∀ p c, providers.lookup provider_id = some p → p.clear_name = some c →
      provider_name providers provider_id = some (some c, false)) := by
  refine ⟨fun h => ⟨fun hall => ?_, fun hex => ?_⟩, fun p hp hq => ?_, fun p c hp hq => ?_⟩
  · simp [provider_name, h, diagnosticLoop_all_named providers hall]
  · simp [provider_name, h, diagnosticLoop_nameless providers hex]
  · simp [provider_name, hp, hq]
  · simp [provider_name, hp, hq]

/-- C10 counterexample: in a directory with a nameless entry, the
known-nameless lookup returns an absent value while an unknown-id lookup
raises `KeyError` in the diagnostic loop — the two outcomes differ, so a
caller can distinguish them. -/
theorem provider_name_nameless_cex :
    provider_name dirNameless 5 = some (none, false)
    ∧ provider_name dirNameless 6 = none
    ∧ provider_name dirNameless 5 ≠ provider_name dirNameless 6 := by
  decide

/-- C10 amended: a known id whose entry lacks `clear_name` yields an
absent value with no diagnostic; but in any directory containing such a
nameless entry, an unknown id does not yield an absent value — the
diagnostic loop raises `KeyError` — so the two cases never coincide and a
caller can distinguish a nameless known provider from an unknown id. -/
theorem provider_name_nameless (providers : List (Int × Provider))
    (known_id other_id : Int) (p : Provider)
    (hk : providers.lookup known_id = some p)
    (hnn : p.clear_name = none)
    (ho : providers.lookup other_id = none) :
    provider_name providers known_id = some (none, false)
    ∧ provider_name providers other_id = none
    ∧ provider_name providers known_id ≠ provider_name providers other_id := by
  have hknown : provider_name providers known_id = some (none, false) := by
    simp [provider_name, hk, hnn]
  have hraise : provider_name providers other_id = none := by
    have hex : ∃ q ∈ providers, (q.2).clear_name = none :=
      ⟨(known_id, p), lookup_mem providers known_id p hk, hnn⟩
    simp [provider_name, ho, diagnosticLoop_nameless providers hex]
  refine ⟨hknown, hraise, ?_⟩
  rw [hknown, hraise]
  simp

/-- C10 witness: the amended theorem applied to the one-entry nameless
directory, with an unknown id. -/
theorem provider_name_nameless_witness :
    provider_name dirNameless 5 ≠ provider_name dirNameless 6 :=
  (provider_name_nameless dirNameless 5 6 namelessProvider
    (by decide) (by decide) (by decide)).2.2

/-- C9: the title line is the bold title followed by the parenthesized
year when the release year is present, and just the bold title when it is
absent; at `release_year = 1999` it renders `"<b>Title</b> (1999)"`. -/
theorem format_base_movie_spec (b : BaseMovie) :
    (∀ y : Int, b.original_release_year = some y →
      format_base_movie b = "<b>" ++ b.title ++ "</b> (" ++ toString y ++ ")")
    ∧ (b.original_release_year = none →
      format_base_movie b = "<b>" ++ b.title ++ "</b>")
    ∧ format_base_movie bmExample = "<b>Title</b> (1999)" := by
  refine ⟨?_, ?_, by decide⟩
  · intro y hy
    simp [format_base_movie, hy]
  · intro hy
    simp [format_base_movie, hy]

theorem intercalate_five (a b d : String) :
    String.intercalate "\n" [a, b, "", d, ""] =
      a ++ "\n" ++ b ++ "\n" ++ "\n" ++ d ++ "\n" := by
  rw [show String.intercalate "\n" [a, b, "", d, ""] =
    a ++ "\n" ++ b ++ "\n" ++ "" ++ "\n" ++ d ++ "\n" ++ "" from rfl]
  rw [String.append_empty, String.append_empty]

/-- C6 counterexample: the code puts the ratings directly on the line
after the title — there is no blank line between them — so the output
differs from the spec's four-part structure at a concrete movie. -/
theorem format_description_cex :
    format_description movieDetailExample = "<b>T</b>\nImdb: 8\n\nd\n"
    ∧ spec_format_detail_block movieDetailExample = "<b>T</b>\n\nImdb: 8\n\nd\n"
    ∧ format_description movieDetailExample ≠ spec_format_detail_block movieDetailExample := by
  decide

/-- C6 amended: `format_description` yields the bold title line (year
inside the bold markup when present), then the comma-joined rating
summaries on the immediately following line with no blank line between,
then one blank line, then the short description, then a trailing newline
(final blank line). -/
theorem format_description_structure (movie : Movie) :
    format_description movie =
      "<b>" ++ (match movie.original_release_year with
        | some y => movie.title ++ " (" ++ toString y ++ ")"
        | none => movie.title) ++ "</b>"
      ++ "\n" ++ String.intercalate ", " (movie.ratings.map Rating.str)
      ++ "\n" ++ "\n" ++ movie.short_description ++ "\n" := by
  unfold format_description
  cases movie.original_release_year with
  | none => exact intercalate_five _ _ _
  | some y => exact intercalate_five _ _ _

theorem mem_firstKeys (l : List Int) (k : Int) : k ∈ firstKeys l ↔ k ∈ l := by
  induction l using firstKeys.induct with
  | case1 => simp [firstKeys]
  | case2 x xs ih =>
    rw [firstKeys]
    by_cases hk : k = x
    · simp [hk]
    · simp only [List.mem_cons, ih, List.mem_filter, bne_iff_ne]
      constructor
      · rintro (rfl | ⟨h, -⟩)
        · exact Or.inl rfl
        · exact Or.inr h
      · rintro (rfl | h)
        · exact Or.inl rfl
        · exact Or.inr ⟨h, by simpa using hk⟩

theorem firstKeys_nodup (l : List Int) : (firstKeys l).Nodup := by
  induction l using firstKeys.induct with
  | case1 => simp [firstKeys]
  | case2 x xs ih =>
    rw [firstKeys]
    refine List.nodup_cons.mpr ⟨?_, ih⟩
    rw [mem_firstKeys]
    simp

theorem firstKeys_concat (xs : List Int) (k : Int) :
    firstKeys (xs ++ [k]) = firstKeys xs ++ (if k ∈ xs then [] else [k]) := by
  induction xs using firstKeys.induct with
  | case1 => simp [firstKeys]
  | case2 x xs ih =>
    rw [List.cons_append, firstKeys, List.filter_append]
    by_cases hk : k = x
    · subst hk
      simp only [List.filter, bne_self_eq_false, List.append_nil]
      rw [firstKeys]
      simp
    · have hfilter : List.filter (fun y => !(y == x)) [k] = [k] := by
        simp [List.filter_singleton, hk]
      rw [hfilter, ih, firstKeys]
      have hmem : k ∈ List.filter (fun y => !(y == x)) xs ↔ k ∈ x :: xs := by
        simp [List.mem_filter, hk, bne_iff_ne]
      by_cases hin : k ∈ x :: xs
      · rw [if_pos (hmem.mpr hin), if_pos hin]
        simp
      · rw [if_neg (fun hc => hin (hmem.mp hc)), if_neg hin]
        simp

theorem any_key_iff (m : List (Int × CinemaLink)) (k : Int) :
    (m.any fun p => p.1 == k) = true ↔ k ∈ m.map Prod.fst := by
  simp only [List.any_eq_true, beq_iff_eq, List.mem_map]

theorem dictInsert_map_fst (m : List (Int × CinemaLink)) (k : Int) (v : CinemaLink) :
    (dictInsert m k v).map Prod.fst =
      m.map Prod.fst ++ (if k ∈ m.map Prod.fst then [] else [k]) := by
  unfold dictInsert
  by_cases h : k ∈ m.map Prod.fst
  · rw [if_pos ((any_key_iff m k).mpr h), if_pos h, List.append_nil, List.map_map]
    refine List.map_congr_left ?_
    intro p _
    by_cases hpk : p.1 = k
    · simp [Function.comp, hpk]
    · simp [Function.comp, hpk]
  · rw [if_neg (fun hc => h ((any_key_iff m k).mp hc)), if_neg h, List.map_append]
    rfl

theorem dictInsert_mem (m : List (Int × CinemaLink)) (k : Int) (v : CinemaLink)
    (e : Int × CinemaLink) (he : e ∈ dictInsert m k v) :
    e = (k, v) ∨ (e ∈ m ∧ e.1 ≠ k) := by
  unfold dictInsert at he
  by_cases h : (m.any fun p => p.1 == k) = true
  · rw [if_pos h] at he
    obtain ⟨p, hp, hpe⟩ := List.mem_map.mp he
    by_cases hpk : p.1 = k
    · left
      rw [← hpe]
      simp [hpk]
    · right
      rw [← hpe]
      simp only [hpk, beq_iff_eq, if_neg hpk]
      exact ⟨hp, hpk⟩
  · rw [if_neg h] at he
    rcases List.mem_append.mp he with he | he
    · right
      refine ⟨he, fun hk => ?_⟩
      exact h ((any_key_iff m k).mpr (List.mem_map.mpr ⟨e, he, hk⟩))
    · left
      simpa using he

theorem lastUrlOf_concat_eq (ls : List CinemaLink) (c : CinemaLink) (pid : Int) :
    lastUrlOf (ls ++ [c]) pid =
      if c.provider_id = pid then some c.url else lastUrlOf ls pid := by
  unfold lastUrlOf
  rw [List.filter_append]
  by_cases h : c.provider_id = pid
  · rw [show List.filter (fun cl => cl.provider_id == pid) [c] = [c] from by
      simp [List.filter_singleton, h]]
    rw [List.getLast?_concat, if_pos h]
    rfl
  · rw [show List.filter (fun cl => cl.provider_id == pid) [c] = [] from by
      simp [List.filter_singleton, h]]
    rw [List.append_nil, if_neg h]

theorem dedupFold_spec (ls : List CinemaLink) :
    (dedupFold ls).map Prod.fst = firstKeys (ls.map CinemaLink.provider_id)
    ∧ ∀ e ∈ dedupFold ls, e.2.provider_id = e.1 ∧ lastUrlOf ls e.1 = some e.2.url := by
  induction ls using List.reverseRecOn with
  | nil =>
    refine ⟨by simp [dedupFold, firstKeys], ?_⟩
    intro e he
    simp [dedupFold] at he
  | append_singleton ls c ih =>
    obtain ⟨iha, ihb⟩ := ih
    have hconcat : dedupFold (ls ++ [c]) = dictInsert (dedupFold ls) c.provider_id c := by
      simp [dedupFold, List.foldl_append]
    constructor
    · rw [hconcat, dictInsert_map_fst, iha, List.map_append]
      rw [show List.map CinemaLink.provider_id [c] = [c.provider_id] from rfl,
        firstKeys_concat]
      congr 1
      simp only [mem_firstKeys]
    · intro e he
      rw [hconcat] at he
      rcases dictInsert_mem _ _ _ _ he with rfl | ⟨hem, hek⟩
      · refine ⟨rfl, ?_⟩
        rw [lastUrlOf_concat_eq]
        simp
      · obtain ⟨h1, h2⟩ := ihb e hem
        rw [lastUrlOf_concat_eq, if_neg (fun hc => hek hc.symm)]
        exact ⟨h1, h2⟩

theorem foldStep_eq (l : List OfferJson) :
    ∀ m : List (Int × CinemaLink),
      l.foldl (fun m offer_json =>
        match CinemaLink.fromJson offer_json with
        | some cinema_link => dictInsert m cinema_link.provider_id cinema_link
        | none => m) m
      = (l.filterMap CinemaLink.fromJson).foldl
          (fun m cl => dictInsert m cl.provider_id cl) m := by
  induction l with
  | nil => intro m; rfl
  | cons o l ih =>
    intro m
    cases ho : CinemaLink.fromJson o with
    | some cl => simp only [List.foldl_cons, List.filterMap_cons, ho, ih]
    | none => simp only [List.foldl_cons, List.filterMap_cons, ho, ih]

/-- C3: the offers a Movie is constructed with contain exactly one entry
per distinct provider id of the successfully parsed raw offers, in
first-occurrence order, each carrying the url of the last raw occurrence
of its provider id; and `Movie.fromJson` installs exactly this list. -/
theorem movie_offers_dedup (raw : List OfferJson) :
    ((offersFromJson raw).map CinemaLink.provider_id =
      firstKeys ((raw.filterMap CinemaLink.fromJson).map CinemaLink.provider_id))
    ∧ ((offersFromJson raw).map CinemaLink.provider_id).Nodup
    ∧ (∀ cl ∈ offersFromJson raw,
        lastUrlOf (raw.filterMap CinemaLink.fromJson) cl.provider_id = some cl.url)
    ∧ ∀ (j : FilmJson) (m : Movie), j.offers = some raw → Movie.fromJson j = some m →
        m.offers = offersFromJson raw := by
  have heq : offersFromJson raw =
      (dedupFold (raw.filterMap CinemaLink.fromJson)).map Prod.snd := by
    unfold offersFromJson dedupFold
    rw [foldStep_eq raw []]
  obtain ⟨ha, hb⟩ := dedupFold_spec (raw.filterMap CinemaLink.fromJson)
  have hmap : (offersFromJson raw).map CinemaLink.provider_id =
      (dedupFold (raw.filterMap CinemaLink.fromJson)).map Prod.fst := by
    rw [heq, List.map_map]
    refine List.map_congr_left ?_
    intro e he
    exact (hb e he).1
  refine ⟨?_, ?_, ?_, ?_⟩
  · rw [hmap, ha]
  · rw [hmap, ha]
    exact firstKeys_nodup _
  · intro cl hcl
    rw [heq] at hcl
    obtain ⟨e, he, rfl⟩ := List.mem_map.mp hcl
    have h := hb e he
    rw [h.1]
    exact h.2
  · intro j m hoff hm
    unfold Movie.fromJson at hm
    cases hbj : BaseMovie.fromJson j with
    | none =>
      rw [hbj] at hm
      exact absurd hm (by simp)
    | some b =>
      rw [hbj] at hm
      cases hsd : j.short_description with
      | none =>
        rw [hsd] at hm
        exact absurd hm (by simp)
      | some sd =>
        cases hp : j.poster with
        | none =>
          rw [hsd, hp] at hm
          exact absurd hm (by simp)
        | some p =>
          rw [hsd, hp] at hm
          obtain rfl := Option.some_injective _ hm
          simp only [hoff]

end Cinemabot
